import Mathlib

/-!
Verification development for `generate_skyrim_items_json.py`, a single-file
wiki scraper.  The shallow embedding below models the program's pure logic:

* the regex heuristics of `FORMID_PATTERNS` and the cascade in
  `extract_name_and_formid` (Python `re.search` semantics, specialised to the
  concrete patterns, over `List Char`);
* `extract_item_links` (filtering and order-preserving deduplication of
  anchors);
* the cache-key derivation and the per-item loop of `scrape_category`;
* the resume/merge logic of `main` (an insertion-ordered association list
  models the Python `defaultdict`).

External collaborators (the HTTP client `requests`, the DOM parser
`BeautifulSoup`, the file system) are modelled as oracle functions bundled in
`Env`, exactly as the program treats them: opaque sources of markup, parsed
anchors and parsed item pages.  Character classes follow the ASCII ranges
written literally in the source regexes.
-/

namespace SkyrimGen

/-- Characters of the regex class `[0-9A-Fa-f]` used by every identifier
pattern in the source. -/
def hexChars : List Char := "0123456789abcdefABCDEF".data

/-- Membership test for the regex class `[0-9A-Fa-f]`. -/
def isHexDig (c : Char) : Bool := hexChars.contains c

/-- Characters matched by `[:\s]` in the `FormID`/`ID` patterns (ASCII
whitespace as matched by Python `\s`, plus the colon). -/
def sepChars : List Char := [':', ' ', '\t', '\n', '\r', '\x0b', '\x0c']

/-- Membership test for `[:\s]`. -/
def isSepChar (c : Char) : Bool := sepChars.contains c

/-- Characters of the regex class `\w` (ASCII part), used by the `\b`
boundaries of the bare-hex pattern. -/
def wordChars : List Char :=
  "abcdefghijklmnopqrstuvwxyzABCDEFGHIJKLMNOPQRSTUVWXYZ0123456789_".data

/-- Membership test for `\w`. -/
def isWordChar (c : Char) : Bool := wordChars.contains c

/-- Characters kept unchanged by `re.sub(r'[^a-zA-Z0-9_-]', '_', ...)` in the
cache-key derivation of `scrape_category`. -/
def safeChars : List Char :=
  "abcdefghijklmnopqrstuvwxyzABCDEFGHIJKLMNOPQRSTUVWXYZ0123456789_-".data

/-- Uppercase hexadecimal alphabet, the co-domain of the normalised
identifiers. -/
def upperHexChars : List Char := "0123456789ABCDEF".data

/-- Literal-prefix test on character lists (the anchored part of a regex
match attempt at one position). -/
def startsWithL : List Char → List Char → Bool
  | [], _ => true
  | _ :: _, [] => false
  | p :: ps, c :: cs => p == c && startsWithL ps cs

/-- Python `re.search` specialised to our patterns: try a match attempt at
every position, left to right, and return the first capture. -/
def searchFrom (p : List Char → Option (List Char)) : List Char → Option (List Char)
  | [] => p []
  | c :: rest =>
    match p (c :: rest) with
    | some r => some r
    | none => searchFrom p rest

/-- Match attempt, at one position, of `LABEL[:\s]*([0-9A-Fa-f]{6,8})` where
`LABEL` is a literal (the source uses `FormID` and `ID`).  The separator run
is disjoint from the hex class, so the greedy `[:\s]*` and `{6,8}` need no
backtracking: the capture is the first eight characters of the maximal hex
run, which must have length at least six. -/
def tryLabel (label : List Char) (s : List Char) : Option (List Char) :=
  if startsWithL label s then
    let afterSep := (s.drop label.length).dropWhile isSepChar
    let run := afterSep.takeWhile isHexDig
    if 6 ≤ run.length then some (run.take 8) else none
  else none

/-- The literal `FormID` of the first pattern. -/
def formIDLabel : List Char := ['F', 'o', 'r', 'm', 'I', 'D']

/-- The literal `ID` of the second pattern. -/
def idLabel : List Char := ['I', 'D']

/-- Match attempt of `0x([0-9A-Fa-f]{6,8})` at one position. -/
def tryHexAfter0x (s : List Char) : Option (List Char) :=
  if startsWithL ['0', 'x'] s then
    let run := (s.drop 2).takeWhile isHexDig
    if 6 ≤ run.length then some (run.take 8) else none
  else none

/-- Match attempt of `([0-9A-Fa-f]{6,8})` (no boundaries) at one position,
used by the infobox-row scan and by the 800-character fallback. -/
def tryBareHex (s : List Char) : Option (List Char) :=
  let run := s.takeWhile isHexDig
  if 6 ≤ run.length then some (run.take 8) else none

/-- Search for `\b([0-9A-Fa-f]{6,8})\b`, threading the previous character for
the left boundary.  At a position the maximal hex run must itself have length
6–8 and be followed by a non-word character (or the end): shorter greedy
retries always abut a further hex digit, which is a word character, so they
all fail the right boundary. -/
def searchBounded (prev : Option Char) : List Char → Option (List Char)
  | [] => none
  | c :: rest =>
    let leftOk : Bool := match prev with | none => true | some p => !(isWordChar p)
    let run := (c :: rest).takeWhile isHexDig
    let after := (c :: rest).drop run.length
    let rightOk : Bool := match after with | [] => true | d :: _ => !(isWordChar d)
    if leftOk && decide (6 ≤ run.length) && decide (run.length ≤ 8) && rightOk then
      some run
    else
      searchBounded (some c) rest

/-- Search of the first pattern `FormID[:\s]*([0-9A-Fa-f]{6,8})`. -/
def pat1Search (t : List Char) : Option (List Char) := searchFrom (tryLabel formIDLabel) t

/-- Search of the second pattern `ID[:\s]*([0-9A-Fa-f]{6,8})`. -/
def pat2Search (t : List Char) : Option (List Char) := searchFrom (tryLabel idLabel) t

/-- Search of the third pattern `0x([0-9A-Fa-f]{6,8})`. -/
def pat3Search (t : List Char) : Option (List Char) := searchFrom tryHexAfter0x t

/-- Search of the fourth pattern `\b([0-9A-Fa-f]{6,8})\b`. -/
def pat4Search (t : List Char) : Option (List Char) := searchBounded none t

/-- The ordered pattern list `FORMID_PATTERNS` of the source. -/
def FORMID_PATTERNS : List (List Char → Option (List Char)) :=
  [pat1Search, pat2Search, pat3Search, pat4Search]

/-- Embedding of `str.replace('0X', '')`: delete every non-overlapping
occurrence of `0X`, scanning left to right. -/
def replace0X : List Char → List Char
  | [] => []
  | [c] => [c]
  | c1 :: c2 :: rest =>
    if c1 = '0' ∧ c2 = 'X' then replace0X rest
    else c1 :: replace0X (c2 :: rest)

example : pat1Search "FormID: 0003A3F8".data = some "0003A3F8".data := by decide
example : pat1Search "formid: 0003A3F8".data = none := by decide
example : pat3Search "0x1a2b3c".data = some "1a2b3c".data := by decide
example : pat4Search "see ABCDEF123 end".data = none := by decide
example : pat4Search "see ABCDEF12 end".data = some "ABCDEF12".data := by decide
example : replace0X "0X0X12".data = "12".data := by decide

/-- Python `str.lower()` (ASCII), character by character.  `String.toLower`
is avoided only because its `mapAux` recursion does not reduce inside the
kernel; the result is the same function on the ASCII strings involved. -/
def toLowerStr (s : String) : String := String.mk (s.data.map Char.toLower)

/-- Substring containment on character lists (Python's `in` on strings). -/
def containsSub (pat : List Char) : List Char → Bool
  | [] => startsWithL pat []
  | c :: rest => startsWithL pat (c :: rest) || containsSub pat rest

/-- The DOM facts `extract_name_and_formid` reads from a parsed item page:
the text of the `firstHeading` element when present, the whitespace-normalised
visible text of the whole page (`soup.get_text(' ', strip=True)`), and, for
each `th` element in order, its stripped text together with the normalised
text of its next `td` sibling when one exists. -/
structure ItemPage where
  heading : Option String
  text : String
  rows : List (String × Option String)
deriving DecidableEq

/-- Label test of the infobox scan: the lowercased `th` text must contain
`formid`, `form id` or `item id`, or equal `id`. -/
def qualifiesLabel (low : String) : Bool :=
  containsSub "formid".data low.data || containsSub "form id".data low.data ||
    containsSub "item id".data low.data || low == "id"

/-- The `th`/`td` scan of `extract_name_and_formid`: first qualifying row
whose value cell contains a 6–8 character hex token wins; rows without such a
token, or without a `td` sibling, are passed over. -/
def scanRows : List (String × Option String) → String
  | [] => ""
  | (label, td) :: rest =>
    if qualifiesLabel (toLowerStr label) then
      match td with
      | none => scanRows rest
      | some tdText =>
        match searchFrom tryBareHex tdText.data with
        | some run => String.mk (run.map Char.toUpper)
        | none => scanRows rest
    else scanRows rest

/-- The pattern loop of `extract_name_and_formid`: try each pattern in order;
on a match, the capture is uppercased and stripped of `0X` occurrences; if
that leaves a non-empty string the loop stops, otherwise the next pattern is
tried. -/
def runPatterns : List (List Char → Option (List Char)) → List Char → String
  | [], _ => ""
  | p :: rest, t =>
    match p t with
    | some g =>
      let f := String.mk (replace0X (g.map Char.toUpper))
      if f = "" then runPatterns rest t else f
    | none => runPatterns rest t

/-- Embedding of `extract_name_and_formid`: heading text (or empty) for the
name; for the identifier, the pattern cascade over the full text, then the
infobox-row scan, then a bare-hex search over the first 800 characters. -/
def extract_name_and_formid (page : ItemPage) : String × String :=
  let name := page.heading.getD ""
  let t := page.text.data
  let f1 := runPatterns FORMID_PATTERNS t
  let f2 := if f1 = "" then scanRows page.rows else f1
  let f3 :=
    if f2 = "" then
      match searchFrom tryBareHex (t.take 800) with
      | some run => String.mk (run.map Char.toUpper)
      | none => ""
    else f2
  (name, f3)

example :
    extract_name_and_formid ⟨some "Iron Sword", "Iron Sword FormID: 0003A3F8 x", []⟩ =
      ("Iron Sword", "0003A3F8") := by decide

/-- The literal `/wiki/` content prefix accepted by `extract_item_links`. -/
def wikiPre : List Char := ['/', 'w', 'i', 'k', 'i', '/']

/-- Filtering stage of `extract_item_links`, applied to the `(href, text)`
anchors of the content container: keep root-relative `/wiki/` links whose
remaining path has no namespace separator and whose visible text is
non-empty; resolve against the base URL's origin (`urljoin` with a
root-relative href replaces the whole path). -/
def acceptedLinks (origin : String) (anchors : List (String × String)) :
    List (String × String) :=
  anchors.filterMap fun a =>
    if startsWithL wikiPre a.1.data then
      if (a.1.data.drop 6).contains ':' then none
      else if a.2 = "" then none
      else some (a.2, origin ++ a.1)
    else none

/-- Order-preserving deduplication by URL (`seen` set plus `uniq` list in the
source). -/
def dedupLinks : List String → List (String × String) → List (String × String)
  | _, [] => []
  | seen, (n, u) :: rest =>
    if seen.contains u then dedupLinks seen rest
    else (n, u) :: dedupLinks (u :: seen) rest

/-- Embedding of `extract_item_links`. -/
def extract_item_links (origin : String) (anchors : List (String × String)) :
    List (String × String) :=
  dedupLinks [] (acceptedLinks origin anchors)

example :
    extract_item_links "https://en.uesp.net"
        [("/wiki/Iron_Sword", "Iron Sword"), ("/wiki/Category:Weapons", "Weapons"),
         ("/wiki/Iron_Sword", "again"), ("/wiki/Steel_Sword", "")] =
      [("Iron Sword", "https://en.uesp.net/wiki/Iron_Sword")] := by decide

/-- One scraped record: `{'name': ..., 'form_id': ..., 'url': ...}`. -/
structure Item where
  name : String
  form_id : String
  url : String
deriving DecidableEq

/-- The output store `out_data`: category key to record list, as an
insertion-ordered association list (Python dicts preserve insertion order,
and resume loading copies the file's entries verbatim in order). -/
abbrev Store := List (String × List Item)

/-- Association-list lookup, the read side of `out_data.get(key, [])`. -/
def lookupStore : Store → String → Option (List Item)
  | [], _ => none
  | (k, v) :: rest, key => if k = key then some v else lookupStore rest key

/-- Replace the list held at `key`, appending a new entry at the end when the
key is absent (the `defaultdict` insertion behaviour). -/
def setStore : Store → String → List Item → Store
  | [], key, v => [(key, v)]
  | (k, l) :: rest, key, v =>
    if k = key then (key, v) :: rest else (k, l) :: setStore rest key v

/-- Lowercased name of a record, the merge key of `main`
(`(i.get('name') or '').lower()`). -/
def lowerName (it : Item) : String := toLowerStr it.name

/-- The `existing_names` set computed once per category in `main`. -/
def existingLowerNames (store : Store) (key : String) : List String :=
  ((lookupStore store key).getD []).map lowerName

/-- The per-category merge of `main` (lines 235–243): the category key is the
lowercased category name, `existing_names` is computed once from the store,
and every scraped item whose lowercased name is not in that set is appended.
The key is created only when at least one item is appended. -/
def mergeCategory (store : Store) (catName : String) (items : List Item) : Store :=
  let key := toLowerStr catName
  let ex := existingLowerNames store key
  let toAdd := items.filter fun it => !(ex.contains (lowerName it))
  if toAdd.isEmpty then store
  else setStore store key (((lookupStore store key).getD []) ++ toAdd)

example :
    mergeCategory [] "weapons"
        [⟨"Iron Sword", "0003A3F8", "u1"⟩, ⟨"iron sword", "AABBCC", "u2"⟩] =
      [("weapons", [⟨"Iron Sword", "0003A3F8", "u1"⟩, ⟨"iron sword", "AABBCC", "u2"⟩])] := by
  decide

/-- The scheme separator `://` splitting scheme from network location. -/
def schemeSep : List Char := [':', '/', '/']

/-- Return what follows the first occurrence of `pat`. -/
def afterSub (pat : List Char) : List Char → Option (List Char)
  | [] => if startsWithL pat [] then some [] else none
  | c :: rest =>
    if startsWithL pat (c :: rest) then some ((c :: rest).drop pat.length)
    else afterSub pat rest

/-- Model of `urlparse(url).path` for the URLs handled here: after `://` skip
the network location up to the first `/`, `?` or `#`, then take the path up
to the query or fragment; without `://` the input up to `?`/`#` is the path. -/
def urlPathL (url : List Char) : List Char :=
  match afterSub schemeSep url with
  | some r =>
    (r.dropWhile fun c => !(c == '/' || c == '?' || c == '#')).takeWhile
      fun c => !(c == '?' || c == '#')
  | none => url.takeWhile fun c => !(c == '?' || c == '#')

/-- Python `path.strip('/')`: remove leading and trailing slashes. -/
def stripSlashes (l : List Char) : List Char :=
  ((l.dropWhile (· == '/')).reverse.dropWhile (· == '/')).reverse

/-- The substitution `re.sub(r'[^a-zA-Z0-9_-]', '_', ...)`. -/
def sanitizeL (l : List Char) : List Char :=
  l.map fun c => if safeChars.contains c then c else '_'

/-- Cache file name derived from an item URL in `scrape_category`
(`safe_name + '.html'`); all files live flat in one directory, so equal names
mean one shared cache slot. -/
def cacheKey (url : String) : String :=
  String.mk (sanitizeL (stripSlashes (urlPathL url.data)) ++ ['.', 'h', 't', 'm', 'l'])

example : cacheKey "https://en.uesp.net/wiki/Iron_Sword" = "wiki_Iron_Sword.html" := by decide

/-- External collaborators of the scraper, as oracle functions: the HTTP
fetch (`None` models any fetch failure), the anchor list the DOM parser
yields for a category page's content container, the parsed facts of an item
page, and the origin used by `urljoin` for root-relative hrefs. -/
structure Env where
  fetch : String → Option String
  parseAnchors : String → List (String × String)
  parsePage : String → ItemPage
  originOf : String → String

/-- The loop guard `if limit and count >= limit: break` (a limit of `0` is
falsy in Python, hence no cap). -/
def limitHit : Option Nat → Nat → Bool
  | none, _ => false
  | some n, count => if n = 0 then false else decide (n ≤ count)

/-- Cache consultation for one item: only when a cache directory is
configured, and a cached empty file is falsy in Python, so it is refetched. -/
def cacheLookup (useCache : Bool) (cache : String → Option String) (key : String) :
    Option String :=
  match (if useCache then cache key else none) with
  | some s => if s = "" then none else some s
  | none => none

/-- Record built for one successfully obtained item page: extracted name, or
the link's display text when the name is empty. -/
def mkItem (env : Env) (title link html : String) : Item :=
  let pr := extract_name_and_formid (env.parsePage html)
  ⟨if pr.1 = "" then title else pr.1, pr.2, link⟩

/-- The per-candidate loop of `scrape_category` (lines 145–175): break when
the cap is reached; use a non-empty cached page if present, otherwise fetch
and (on success, cache configured) store the page under its cache key; a
failed or empty fetch skips the candidate without advancing `count`.  Returns
the records in order together with the final cache contents (the cache write
is modelled as succeeding; the source ignores write errors). -/
def scrapeLoop (env : Env) (useCache : Bool) (limit : Option Nat) :
    (String → Option String) → Nat → List (String × String) →
      List Item × (String → Option String)
  | cache, _, [] => ([], cache)
  | cache, count, (title, link) :: rest =>
    if limitHit limit count then ([], cache)
    else
      match cacheLookup useCache cache (cacheKey link) with
      | some html =>
        let r := scrapeLoop env useCache limit cache (count + 1) rest
        (mkItem env title link html :: r.1, r.2)
      | none =>
        match env.fetch link with
        | none => scrapeLoop env useCache limit cache count rest
        | some html =>
          if html = "" then scrapeLoop env useCache limit cache count rest
          else
            let cache' :=
              if useCache then
                (fun k => if k = cacheKey link then some html else cache k)
              else cache
            let r := scrapeLoop env useCache limit cache' (count + 1) rest
            (mkItem env title link html :: r.1, r.2)

/-- Embedding of `scrape_category`: fetch the category page (a failed or
empty fetch yields no records), extract candidate links, then run the
per-candidate loop. -/
def scrape_category (env : Env) (useCache : Bool) (limit : Option Nat)
    (cache : String → Option String) (url : String) :
    List Item × (String → Option String) :=
  match env.fetch url with
  | none => ([], cache)
  | some html =>
    if html = "" then ([], cache)
    else
      scrapeLoop env useCache limit cache 0
        (extract_item_links (env.originOf url) (env.parseAnchors html))

/-- The limit that `main` passes to `scrape_category`
(`args.max_per_cat or None`). -/
def mainLimit (n : Nat) : Option Nat := if n = 0 then none else some n

/-- The category loop of `main`: scrape each category in order, threading
the cache, and merge its records into the store under the lowercased
category name. -/
def runCategories (env : Env) (useCache : Bool) (limit : Option Nat) :
    (String → Option String) → Store → List (String × String) → Store
  | _, store, [] => store
  | cache, store, (name, url) :: rest =>
    let r := scrape_category env useCache limit cache url
    runCategories env useCache limit r.2 (mergeCategory store name r.1) rest

/-! Supporting lemmas: character classes and captured tokens. -/

theorem mem_hexChars_of_isHexDig {c : Char} (h : isHexDig c = true) : c ∈ hexChars := by
  unfold isHexDig at h
  exact List.mem_of_elem_eq_true h

theorem toUpper_mem_upperHex {c : Char} (h : isHexDig c = true) :
    Char.toUpper c ∈ upperHexChars := by
  have hm : c ∈ hexChars := mem_hexChars_of_isHexDig h
  fin_cases hm <;> decide

theorem upperHex_ne_X {c : Char} (h : c ∈ upperHexChars) : c ≠ 'X' := by
  fin_cases h <;> decide

theorem hex_not_sep {c : Char} (h : isHexDig c = true) : isSepChar c = false := by
  have hm : c ∈ hexChars := mem_hexChars_of_isHexDig h
  fin_cases hm <;> decide

theorem replace0X_eq_self : ∀ {l : List Char}, (∀ c ∈ l, c ≠ 'X') → replace0X l = l
  | [], _ => rfl
  | [_], _ => rfl
  | c1 :: c2 :: rest, h => by
    have h2 : c2 ≠ 'X' := h c2 (by simp)
    rw [replace0X, if_neg (by rintro ⟨_, hx⟩; exact h2 hx)]
    have := replace0X_eq_self (fun c hc => h c (List.mem_cons_of_mem _ hc))
    rw [this]

/-- Well-formedness of a captured token: all characters hexadecimal, length
between six and eight. -/
def GoodCap (g : List Char) : Prop :=
  (∀ c ∈ g, isHexDig c = true) ∧ 6 ≤ g.length ∧ g.length ≤ 8

theorem goodCap_of_run {run : List Char} (hall : ∀ c ∈ run, isHexDig c = true)
    (h6 : 6 ≤ run.length) : GoodCap (run.take 8) := by
  refine ⟨fun c hc => hall c (List.take_subset _ _ hc), ?_, ?_⟩
  · rw [List.length_take]; omega
  · rw [List.length_take]; omega

theorem tryLabel_goodCap {label s g} (h : tryLabel label s = some g) : GoodCap g := by
  unfold tryLabel at h
  split at h
  · dsimp only at h
    split at h
    · cases h
      exact goodCap_of_run (fun c hc => List.mem_takeWhile_imp hc) (by assumption)
    · cases h
  · cases h

theorem tryHexAfter0x_goodCap {s g} (h : tryHexAfter0x s = some g) : GoodCap g := by
  unfold tryHexAfter0x at h
  split at h
  · dsimp only at h
    split at h
    · cases h
      exact goodCap_of_run (fun c hc => List.mem_takeWhile_imp hc) (by assumption)
    · cases h
  · cases h

theorem tryBareHex_goodCap {s g} (h : tryBareHex s = some g) : GoodCap g := by
  unfold tryBareHex at h
  dsimp only at h
  split at h
  · cases h
    exact goodCap_of_run (fun c hc => List.mem_takeWhile_imp hc) (by assumption)
  · cases h

theorem searchFrom_goodCap {p : List Char → Option (List Char)}
    (hp : ∀ s g, p s = some g → GoodCap g) :
    ∀ {t g}, searchFrom p t = some g → GoodCap g
  | [], g, h => hp [] g h
  | c :: rest, g, h => by
    rw [searchFrom] at h
    cases hpc : p (c :: rest) with
    | some r => rw [hpc] at h; cases h; exact hp _ _ hpc
    | none => rw [hpc] at h; exact searchFrom_goodCap hp h

theorem searchBounded_goodCap : ∀ {prev t g}, searchBounded prev t = some g → GoodCap g
  | _, [], _, h => by cases h
  | prev, c :: rest, g, h => by
    rw [searchBounded.eq_def] at h
    dsimp only at h
    split at h
    · cases h
      rename_i hcond
      simp only [Bool.and_eq_true, decide_eq_true_eq] at hcond
      exact ⟨fun d hd => List.mem_takeWhile_imp hd, hcond.1.1.2, hcond.1.2⟩
    · exact searchBounded_goodCap h

theorem patterns_goodCap :
    ∀ p ∈ FORMID_PATTERNS, ∀ s g, p s = some g → GoodCap g := by
  intro p hp
  unfold FORMID_PATTERNS at hp
  fin_cases hp
  · exact fun s g h => searchFrom_goodCap (fun _ _ => tryLabel_goodCap) h
  · exact fun s g h => searchFrom_goodCap (fun _ _ => tryLabel_goodCap) h
  · exact fun s g h => searchFrom_goodCap (fun _ _ => tryHexAfter0x_goodCap) h
  · exact fun s g h => searchBounded_goodCap h

/-- Shape of a normalised non-empty identifier. -/
def UpperHexShape (s : String) : Prop :=
  6 ≤ s.length ∧ s.length ≤ 8 ∧ (s.data.all fun c => upperHexChars.contains c) = true

theorem contains_of_mem {l : List Char} {c : Char} (h : c ∈ l) : l.contains c = true :=
  List.elem_eq_true_of_mem h

theorem upperStr_shape {g : List Char} (h : GoodCap g) :
    UpperHexShape (String.mk (g.map Char.toUpper)) := by
  obtain ⟨hc, h6, h8⟩ := h
  refine ⟨?_, ?_, ?_⟩
  · show 6 ≤ (g.map Char.toUpper).length
    rw [List.length_map]; exact h6
  · show (g.map Char.toUpper).length ≤ 8
    rw [List.length_map]; exact h8
  · rw [List.all_eq_true]
    intro c hcm
    rcases List.mem_map.1 hcm with ⟨c', hc', rfl⟩
    exact contains_of_mem (toUpper_mem_upperHex (hc c' hc'))

theorem normalized_shape {g : List Char} (h : GoodCap g) :
    UpperHexShape (String.mk (replace0X (g.map Char.toUpper))) := by
  have hnx : ∀ c ∈ g.map Char.toUpper, c ≠ 'X' := by
    intro c hcm
    rcases List.mem_map.1 hcm with ⟨c', hc', rfl⟩
    exact upperHex_ne_X (toUpper_mem_upperHex (h.1 c' hc'))
  rw [replace0X_eq_self hnx]
  exact upperStr_shape h

theorem normalized_ne_empty {g : List Char} (h : GoodCap g) :
    String.mk (replace0X (g.map Char.toUpper)) ≠ "" := by
  intro he
  have := (normalized_shape h).1
  rw [he] at this
  simp [String.length] at this

theorem runPatterns_shape :
    ∀ pats, (∀ p ∈ pats, ∀ s g, p s = some g → GoodCap g) →
      ∀ t, runPatterns pats t = "" ∨ UpperHexShape (runPatterns pats t)
  | [], _, _ => Or.inl rfl
  | p :: rest, hp, t => by
    rw [runPatterns]
    cases hpt : p t with
    | some g =>
      have hg : GoodCap g := hp p (by simp) t g hpt
      dsimp only
      rw [if_neg (normalized_ne_empty hg)]
      exact Or.inr (normalized_shape hg)
    | none =>
      exact runPatterns_shape rest (fun q hq => hp q (List.mem_cons_of_mem _ hq)) t

theorem scanRows_shape :
    ∀ rows, scanRows rows = "" ∨ UpperHexShape (scanRows rows)
  | [] => Or.inl rfl
  | (label, td) :: rest => by
    rw [scanRows.eq_def]
    dsimp only
    split
    · cases td with
      | none => exact scanRows_shape rest
      | some tdText =>
        dsimp only
        cases hs : searchFrom tryBareHex tdText.data with
        | some run =>
          exact Or.inr (upperStr_shape
            (searchFrom_goodCap (fun _ _ => tryBareHex_goodCap) hs))
        | none => exact scanRows_shape rest
    · exact scanRows_shape rest

/-- C3: for every item-page input, `extract_name_and_formid` returns a
`form_id` that is either empty or a string of six to eight characters drawn
only from digits and uppercase `A`–`F`; in particular the `0X`-stripping step
never shortens a captured token below six characters (it is the identity on
captures, which contain no `X`). -/
theorem extract_formid_shape (page : ItemPage) :
    (extract_name_and_formid page).2 = "" ∨ UpperHexShape (extract_name_and_formid page).2 := by
  unfold extract_name_and_formid
  dsimp only
  have h1 := runPatterns_shape FORMID_PATTERNS patterns_goodCap page.text.data
  by_cases hf1 : runPatterns FORMID_PATTERNS page.text.data = ""
  · rw [if_pos hf1]
    have h2 := scanRows_shape page.rows
    by_cases hf2 : scanRows page.rows = ""
    · rw [if_pos hf2]
      cases hs : searchFrom tryBareHex (page.text.data.take 800) with
      | some run =>
        exact Or.inr (upperStr_shape
          (searchFrom_goodCap (fun _ _ => tryBareHex_goodCap) hs))
      | none => exact Or.inl rfl
    · rw [if_neg hf2]
      exact Or.inr (h2.resolve_left hf2)
  · rw [if_neg hf1, if_neg hf1]
    exact Or.inr (h1.resolve_left hf1)

/-- C6: an item page whose normalised visible text is exactly `0x1a2b3c`
yields the identifier `1A2B3C`: the first two patterns fail (no `FormID` or
`ID` literal), the `0x` pattern captures `1a2b3c`, and uppercasing followed
by `0X`-stripping leaves `1A2B3C` with no leftover marker. -/
theorem extract_formid_hex_prefix_scenario :
    extract_name_and_formid ⟨none, "0x1a2b3c", []⟩ = ("", "1A2B3C") := by decide

/-! Supporting lemmas: where a label pattern matches. -/

theorem startsWithL_self_append (l t : List Char) : startsWithL l (l ++ t) = true := by
  induction l with
  | nil => rfl
  | cons c cs ih => simp [startsWithL, ih]

theorem dropWhile_all_append {p : Char → Bool} :
    ∀ {xs : List Char} (ys : List Char), (∀ c ∈ xs, p c = true) →
      (xs ++ ys).dropWhile p = ys.dropWhile p
  | [], ys, _ => rfl
  | x :: xs, ys, h => by
    rw [List.cons_append, List.dropWhile_cons, if_pos (h x (by simp))]
    exact dropWhile_all_append ys fun c hc => h c (List.mem_cons_of_mem _ hc)

theorem takeWhile_all_append {p : Char → Bool} :
    ∀ {xs : List Char} (ys : List Char), (∀ c ∈ xs, p c = true) →
      (xs ++ ys).takeWhile p = xs ++ ys.takeWhile p
  | [], ys, _ => rfl
  | x :: xs, ys, h => by
    rw [List.cons_append, List.takeWhile_cons, if_pos (h x (by simp)), List.cons_append]
    rw [takeWhile_all_append ys fun c hc => h c (List.mem_cons_of_mem _ hc)]

/-- Test that a list does not begin with a hex digit (so a maximal hex run
ends exactly where it stands). -/
def noHexHead (l : List Char) : Bool :=
  match l with
  | [] => true
  | c :: _ => !(isHexDig c)

theorem takeWhile_hex_eq_nil {ys : List Char} (h : noHexHead ys = true) :
    ys.takeWhile isHexDig = [] := by
  cases ys with
  | nil => rfl
  | cons c cs =>
    rw [List.takeWhile_cons]
    unfold noHexHead at h
    simp only [Bool.not_eq_true'] at h
    rw [if_neg (by simp [h])]

/-- A label match attempt succeeds exactly where the text spells the literal
label, an optional separator run, and a maximal hex token of admissible
length. -/
theorem tryLabel_at {label seps tok rest : List Char}
    (hseps : seps.all isSepChar = true)
    (htok : tok.all isHexDig = true)
    (h6 : 6 ≤ tok.length) (h8 : tok.length ≤ 8)
    (hrest : noHexHead rest = true) :
    tryLabel label (label ++ (seps ++ (tok ++ rest))) = some tok := by
  have htok' : ∀ c ∈ tok, isHexDig c = true := List.all_eq_true.1 htok
  unfold tryLabel
  rw [startsWithL_self_append]
  dsimp only
  rw [List.drop_left, dropWhile_all_append _ (List.all_eq_true.1 hseps)]
  have hdw : (tok ++ rest).dropWhile isSepChar = tok ++ rest := by
    cases tok with
    | nil => simp at h6
    | cons c0 tok' =>
      rw [List.cons_append, List.dropWhile_cons,
        if_neg (by simp [hex_not_sep (htok' c0 (by simp))])]
  rw [hdw, takeWhile_all_append _ htok', takeWhile_hex_eq_nil hrest, List.append_nil]
  rw [if_pos h6, List.take_of_length_le h8]
  exact if_pos rfl

/-- A search over `pre ++ s` where no attempt inside `pre` can succeed
returns the match found at the start of `s`. -/
theorem searchFrom_append {p : List Char → Option (List Char)} :
    ∀ (pre s r : List Char),
      (∀ i, i < pre.length → p ((pre ++ s).drop i) = none) →
      p s = some r → searchFrom p (pre ++ s) = some r
  | [], s, r, _, hs => by
    cases s with
    | nil => simpa [searchFrom] using hs
    | cons c cs => simp only [List.nil_append] at *; rw [searchFrom, hs]
  | a :: pre', s, r, hpre, hs => by
    have h0 : p (a :: (pre' ++ s)) = none := by
      have := hpre 0 (by simp)
      simpa using this
    rw [List.cons_append, searchFrom, h0]
    refine searchFrom_append pre' s r (fun i hi => ?_) hs
    have := hpre (i + 1) (by simpa using Nat.succ_lt_succ hi)
    simpa using this

/-- C2 corrected: tiers 1 and 2 match their labels case-sensitively.  When
the text is `pre ++ label ++ separators ++ token ++ rest` with the label in
its exact source spelling (`FormID`, resp. `ID`), the label not starting at
any earlier position, the separators drawn from `[:\s]`, and a 6–8 character
hex token not followed by a further hex digit, the tier captures exactly that
token. -/
theorem tier12_exact_label_captures
    (label pre seps tok rest : List Char)
    (_hlab : label = formIDLabel ∨ label = idLabel)
    (hpre : ((List.range pre.length).all fun i =>
        !(startsWithL label ((pre ++ (label ++ (seps ++ (tok ++ rest)))).drop i))) = true)
    (hseps : seps.all isSepChar = true)
    (htok : tok.all isHexDig = true)
    (h6 : 6 ≤ tok.length) (h8 : tok.length ≤ 8)
    (hrest : noHexHead rest = true) :
    searchFrom (tryLabel label) (pre ++ (label ++ (seps ++ (tok ++ rest)))) = some tok := by
  refine searchFrom_append pre _ tok (fun i hi => ?_) (tryLabel_at hseps htok h6 h8 hrest)
  have hsw := List.all_eq_true.1 hpre i (List.mem_range.2 hi)
  simp only [Bool.not_eq_true'] at hsw
  simp [tryLabel, hsw]

/-- C2 amended, instantiated: with the exact-case label `FormID` the first
tier captures the adjacent token. -/
theorem tier12_exact_label_captures_witness :
    searchFrom (tryLabel formIDLabel)
        ("x ".data ++ (formIDLabel ++ (": ".data ++ ("1A2B3C".data ++ " y".data)))) =
      some "1A2B3C".data :=
  tier12_exact_label_captures formIDLabel "x ".data ": ".data "1A2B3C".data " y".data
    (Or.inl rfl) (by decide) (by decide) (by decide) (by decide) (by decide) (by decide)

/-- C2 counterexample: the source compiles its patterns without
`re.IGNORECASE`, so a page whose text carries the label in lower case
(`formid: 1A2B3C`, resp. `id: 1A2B3C`) is not matched by tier 1 (resp.
tier 2), contradicting the claimed case-insensitive labels. -/
theorem tier12_label_not_case_insensitive :
    pat1Search "formid: 1A2B3C".data = none ∧ pat2Search "id: 1A2B3C".data = none := by
  decide

/-! Supporting lemmas: the merge step of `main`. -/

theorem lookup_setStore (s : Store) (k : String) (v : List Item) :
    lookupStore (setStore s k v) k = some v := by
  induction s with
  | nil => simp [setStore, lookupStore]
  | cons e rest ih =>
    obtain ⟨k', v'⟩ := e
    by_cases h : k' = k
    · subst h; simp [setStore, lookupStore]
    · simp [setStore, lookupStore, h, ih]

theorem mergeCategory_of_isEmpty {store : Store} {catName : String} {items : List Item}
    (h : (items.filter fun it =>
        !((existingLowerNames store (toLowerStr catName)).contains (lowerName it))).isEmpty =
      true) :
    mergeCategory store catName items = store := by
  unfold mergeCategory
  dsimp only
  rw [if_pos h]

theorem mergeCategory_of_not_isEmpty {store : Store} {catName : String} {items : List Item}
    (h : ¬ (items.filter fun it =>
        !((existingLowerNames store (toLowerStr catName)).contains (lowerName it))).isEmpty =
      true) :
    mergeCategory store catName items =
      setStore store (toLowerStr catName)
        (((lookupStore store (toLowerStr catName)).getD []) ++
          (items.filter fun it =>
            !((existingLowerNames store (toLowerStr catName)).contains (lowerName it)))) := by
  unfold mergeCategory
  dsimp only
  rw [if_neg h]

theorem mergeCategory_lookup (store : Store) (catName : String) (items : List Item) :
    (lookupStore (mergeCategory store catName items) (toLowerStr catName)).getD [] =
      ((lookupStore store (toLowerStr catName)).getD []) ++
        (items.filter fun it =>
          !((existingLowerNames store (toLowerStr catName)).contains (lowerName it))) := by
  by_cases h : (items.filter fun it =>
      !((existingLowerNames store (toLowerStr catName)).contains (lowerName it))).isEmpty = true
  · rw [mergeCategory_of_isEmpty h]
    rw [List.isEmpty_iff] at h
    rw [h, List.append_nil]
  · rw [mergeCategory_of_not_isEmpty h, lookup_setStore]
    rfl

/-- C1 counterexample: two records produced by the same Category Scraper
invocation with case-insensitively equal names (`Iron Sword` and
`iron sword`) are both appended by the merge of `main`: `existing_names` is
computed once before the loop and never extended, so the merged category
violates the claimed invariant. -/
theorem merge_same_run_duplicates :
    lookupStore
        (mergeCategory [] "weapons"
          [⟨"Iron Sword", "0003A3F8", "u1"⟩, ⟨"iron sword", "AABBCC", "u2"⟩])
        "weapons" =
      some [⟨"Iron Sword", "0003A3F8", "u1"⟩, ⟨"iron sword", "AABBCC", "u2"⟩] ∧
    lowerName ⟨"Iron Sword", "0003A3F8", "u1"⟩ = lowerName ⟨"iron sword", "AABBCC", "u2"⟩ ∧
    ¬ ([⟨"Iron Sword", "0003A3F8", "u1"⟩, ⟨"iron sword", "AABBCC", "u2"⟩] : List Item).Pairwise
        (fun a b => lowerName a ≠ lowerName b) := by
  refine ⟨by decide, by decide, ?_⟩
  intro h
  have := List.rel_of_pairwise_cons h (List.mem_singleton.2 rfl)
  exact this (by decide)

/-- C1 amended: the merge never appends a record whose lowercased name is
already stored for the category, so the case-insensitive no-duplicate
invariant holds for the merged category list provided the stored records
already satisfied it and the scraped items' lowercased names are pairwise
distinct; items of one scraper invocation are not deduplicated against each
other. -/
theorem mergeCategory_pairwise_distinct (store : Store) (catName : String) (items : List Item)
    (hold : ((lookupStore store (toLowerStr catName)).getD []).Pairwise
      (fun a b => lowerName a ≠ lowerName b))
    (hits : items.Pairwise (fun a b => lowerName a ≠ lowerName b)) :
    ((lookupStore (mergeCategory store catName items) (toLowerStr catName)).getD []).Pairwise
      (fun a b => lowerName a ≠ lowerName b) := by
  rw [mergeCategory_lookup, List.pairwise_append]
  refine ⟨hold, hits.filter _, ?_⟩
  intro a ha b hb heq
  rcases List.mem_filter.1 hb with ⟨_, hbp⟩
  simp only [Bool.not_eq_true'] at hbp
  have hmem : (existingLowerNames store (toLowerStr catName)).contains (lowerName b) = true := by
    apply List.elem_eq_true_of_mem
    exact heq ▸ List.mem_map_of_mem lowerName ha
  rw [hbp] at hmem
  cases hmem

/-- C1 amended, instantiated: merging a fresh distinct name into a category
with one stored record keeps the invariant. -/
theorem mergeCategory_pairwise_distinct_witness :
    ((lookupStore
        (mergeCategory [("weapons", [⟨"Iron Sword", "0003A3F8", "u0"⟩])] "weapons"
          [⟨"Steel Sword", "AABB11", "u1"⟩])
        (toLowerStr "weapons")).getD []).Pairwise (fun a b => lowerName a ≠ lowerName b) :=
  mergeCategory_pairwise_distinct _ _ _
    (by rw [show lookupStore [("weapons", [⟨"Iron Sword", "0003A3F8", "u0"⟩])]
          (toLowerStr "weapons") = some [⟨"Iron Sword", "0003A3F8", "u0"⟩] from by decide]
        exact List.pairwise_singleton _ _)
    (List.pairwise_singleton _ _)

/-- C5: the merge of `main` is idempotent — re-running over identical
category content appends nothing, since every rediscovered item's lowercased
name is already among the stored names; and, concretely, a resumed store
already holding `Iron Sword` for `weapons` is unchanged when the scrape
rediscovers it. -/
theorem mergeCategory_idempotent :
    (∀ (store : Store) (catName : String) (items : List Item),
        mergeCategory (mergeCategory store catName items) catName items =
          mergeCategory store catName items) ∧
      mergeCategory [("weapons", [⟨"Iron Sword", "0003A3F8", "u"⟩])] "weapons"
          [⟨"Iron Sword", "0003A3F8", "u2"⟩] =
        [("weapons", [⟨"Iron Sword", "0003A3F8", "u"⟩])] := by
  constructor
  · intro store catName items
    by_cases hemp : (items.filter fun it =>
        !((existingLowerNames store (toLowerStr catName)).contains (lowerName it))).isEmpty = true
    · rw [mergeCategory_of_isEmpty hemp, mergeCategory_of_isEmpty hemp]
    · have hall : ∀ it ∈ items,
          ((existingLowerNames (mergeCategory store catName items) (toLowerStr catName)).contains
            (lowerName it)) = true := by
        intro it hit
        apply List.elem_eq_true_of_mem
        unfold existingLowerNames
        rw [mergeCategory_lookup]
        rw [List.map_append]
        by_cases hmem : (existingLowerNames store (toLowerStr catName)).contains (lowerName it) =
            true
        · exact List.mem_append_left _ (List.mem_of_elem_eq_true hmem)
        · refine List.mem_append_right _ (List.mem_map_of_mem lowerName ?_)
          exact List.mem_filter.2 ⟨hit, by simpa using hmem⟩
      have hnil : (items.filter fun it =>
          !((existingLowerNames (mergeCategory store catName items) (toLowerStr catName)).contains
            (lowerName it))).isEmpty = true := by
        rw [List.isEmpty_iff, List.filter_eq_nil_iff]
        intro it hit hco
        simp only [Bool.not_eq_true'] at hco
        rw [hall it hit] at hco
        cases hco
      exact mergeCategory_of_isEmpty hnil
  · decide

/-! Supporting lemmas: the link extractor. -/

theorem dedupLinks_sublist : ∀ (seen : List String) (l : List (String × String)),
    List.Sublist (dedupLinks seen l) l
  | _, [] => List.Sublist.refl []
  | seen, (n, u) :: rest => by
    rw [dedupLinks.eq_def]
    dsimp only
    split
    · exact List.Sublist.cons _ (dedupLinks_sublist seen rest)
    · exact List.Sublist.cons₂ _ (dedupLinks_sublist (u :: seen) rest)

theorem dedupLinks_not_seen : ∀ {seen : List String} {l : List (String × String)}
    {p : String × String}, p ∈ dedupLinks seen l → p.2 ∉ seen
  | _, [], p, h => absurd h (List.not_mem_nil p)
  | seen, (n, u) :: rest, p, h => by
    rw [dedupLinks.eq_def] at h
    dsimp only at h
    split at h
    · exact dedupLinks_not_seen h
    · rename_i hcon
      rcases List.mem_cons.1 h with rfl | h'
      · exact fun hmem => hcon (List.elem_eq_true_of_mem hmem)
      · exact fun hm => dedupLinks_not_seen h' (List.mem_cons_of_mem _ hm)

theorem dedupLinks_nodup : ∀ (seen : List String) (l : List (String × String)),
    ((dedupLinks seen l).map Prod.snd).Nodup
  | _, [] => List.nodup_nil
  | seen, (n, u) :: rest => by
    rw [dedupLinks.eq_def]
    dsimp only
    split
    · exact dedupLinks_nodup seen rest
    · rw [List.map_cons, List.nodup_cons]
      refine ⟨?_, dedupLinks_nodup (u :: seen) rest⟩
      intro hmem
      rcases List.mem_map.1 hmem with ⟨q, hq, hqu⟩
      exact dedupLinks_not_seen hq (hqu ▸ List.mem_cons_self u seen)

theorem dedupLinks_find : ∀ (seen : List String) (l : List (String × String))
    (p : String × String), p ∈ dedupLinks seen l →
      l.find? (fun q => q.2 == p.2) = some p
  | _, [], p, h => absurd h (List.not_mem_nil p)
  | seen, (n, u) :: rest, p, h => by
    rw [dedupLinks.eq_def] at h
    dsimp only at h
    split at h
    · rename_i hcon
      have hne : u ≠ p.2 := fun he =>
        dedupLinks_not_seen h (he ▸ List.mem_of_elem_eq_true hcon)
      rw [List.find?_cons]
      rw [show ((n, u).2 == p.2) = false from beq_eq_false_iff_ne.2 hne]
      exact dedupLinks_find seen rest p h
    · rcases List.mem_cons.1 h with rfl | h'
      · rw [List.find?_cons]
        rw [show ((n, u).2 == (n, u).2) = true from beq_self_eq_true _]
      · have hne : u ≠ p.2 := fun he =>
          dedupLinks_not_seen h' (he ▸ List.mem_cons_self u seen)
        rw [List.find?_cons]
        rw [show ((n, u).2 == p.2) = false from beq_eq_false_iff_ne.2 hne]
        exact dedupLinks_find (u :: seen) rest p h'

theorem acceptedLinks_mem {origin : String} {anchors : List (String × String)}
    {p : String × String} (h : p ∈ acceptedLinks origin anchors) :
    ∃ href text, (href, text) ∈ anchors ∧ p = (text, origin ++ href) ∧
      startsWithL wikiPre href.data = true ∧
      (href.data.drop 6).contains ':' = false ∧ text ≠ "" := by
  unfold acceptedLinks at h
  rcases List.mem_filterMap.1 h with ⟨a, ha, hfa⟩
  obtain ⟨href, text⟩ := a
  dsimp only at hfa
  split at hfa
  · rename_i hsw
    split at hfa
    · cases hfa
    · rename_i hc
      split at hfa
      · cases hfa
      · rename_i hne
        cases hfa
        exact ⟨href, text, ha, rfl, hsw, Bool.not_eq_true _ ▸ Bool.of_not_eq_true hc, hne⟩
  · cases hfa

theorem startsWithL_append_both (x : List Char) {y z : List Char}
    (h : startsWithL y z = true) : startsWithL (x ++ y) (x ++ z) = true := by
  induction x with
  | nil => simpa using h
  | cons c cs ih => simp [startsWithL, ih]

/-- C4: for every base-URL origin and anchor list, `extract_item_links`
returns pairs whose URLs are pairwise distinct, each URL extending the origin
by a `/wiki/` path whose remainder carries no `:`; every display text is
non-empty; and the output is a subsequence of the accepted links in which
each kept pair is the first occurrence of its URL (first occurrence wins,
later duplicates dropped, document order preserved). -/
theorem extract_item_links_spec (origin : String) (anchors : List (String × String)) :
    ((extract_item_links origin anchors).map Prod.snd).Nodup ∧
    ((extract_item_links origin anchors).all fun p => p.1 != "") = true ∧
    ((extract_item_links origin anchors).all fun p =>
      startsWithL (origin.data ++ wikiPre) p.2.data &&
        !((p.2.data.drop (origin.data.length + 6)).contains ':')) = true ∧
    List.Sublist (extract_item_links origin anchors) (acceptedLinks origin anchors) ∧
    ((extract_item_links origin anchors).all fun p =>
      (acceptedLinks origin anchors).find? (fun q => q.2 == p.2) == some p) = true := by
  have hsub : List.Sublist (extract_item_links origin anchors) (acceptedLinks origin anchors) :=
    dedupLinks_sublist [] (acceptedLinks origin anchors)
  refine ⟨dedupLinks_nodup [] _, ?_, ?_, hsub, ?_⟩
  · rw [List.all_eq_true]
    intro p hp
    rcases acceptedLinks_mem (hsub.subset hp) with ⟨href, text, _, rfl, _, _, hne⟩
    exact bne_iff_ne.2 hne
  · rw [List.all_eq_true]
    intro p hp
    rcases acceptedLinks_mem (hsub.subset hp) with ⟨href, text, _, rfl, hsw, hc, _⟩
    rw [Bool.and_eq_true]
    constructor
    · show startsWithL (origin.data ++ wikiPre) (origin ++ href).data = true
      rw [String.data_append]
      exact startsWithL_append_both origin.data hsw
    · show (!(((origin ++ href).data.drop (origin.data.length + 6)).contains ':')) = true
      rw [String.data_append, ← List.drop_drop, List.drop_left, hc]
      rfl
  · rw [List.all_eq_true]
    intro p hp
    have := dedupLinks_find [] (acceptedLinks origin anchors) p hp
    simp [this]

/-! Supporting lemmas: the scraper loop and the run loop. -/

theorem mergeCategory_nil (store : Store) (catName : String) :
    mergeCategory store catName [] = store :=
  mergeCategory_of_isEmpty rfl

theorem runCategories_skip (env : Env) (useCache : Bool) (limit : Option Nat)
    {name url : String} (h : env.fetch url = none) :
    ∀ (cats1 : List (String × String)) (cache : String → Option String) (store : Store)
      (cats2 : List (String × String)),
      runCategories env useCache limit cache store (cats1 ++ (name, url) :: cats2) =
        runCategories env useCache limit cache store (cats1 ++ cats2)
  | [], cache, store, cats2 => by
    rw [List.nil_append, List.nil_append, runCategories]
    have hscrape : scrape_category env useCache limit cache url = ([], cache) := by
      unfold scrape_category; rw [h]
    rw [hscrape, mergeCategory_nil]
  | (n2, u2) :: cats1', cache, store, cats2 => by
    rw [List.cons_append, List.cons_append, runCategories, runCategories]
    exact runCategories_skip env useCache limit h cats1' _ _ cats2

/-- C7: when the category-page fetch fails, `scrape_category` returns the
empty record sequence, and the run orchestrator's loop over the category list
proceeds to the remaining categories exactly as if the failed category were
absent (same final store), rather than terminating the run. -/
theorem fetch_failure_not_fatal (env : Env) (useCache : Bool) (limit : Option Nat)
    (cache : String → Option String) (store : Store)
    (cats1 cats2 : List (String × String)) (name url : String)
    (h : env.fetch url = none) :
    (scrape_category env useCache limit cache url).1 = [] ∧
    runCategories env useCache limit cache store (cats1 ++ (name, url) :: cats2) =
      runCategories env useCache limit cache store (cats1 ++ cats2) := by
  constructor
  · unfold scrape_category; rw [h]
  · exact runCategories_skip env useCache limit h cats1 cache store cats2

/-- C7 instantiated: a run whose first category's fetch fails still processes
the second category. -/
theorem fetch_failure_not_fatal_witness :
    (scrape_category ⟨fun _ => none, fun _ => [], fun _ => ⟨none, "", []⟩, fun s => s⟩ true none
        (fun _ => none) "https://en.uesp.net/wiki/Skyrim:Weapons").1 = [] ∧
    runCategories ⟨fun _ => none, fun _ => [], fun _ => ⟨none, "", []⟩, fun s => s⟩ true none
        (fun _ => none) []
        [("weapons", "https://en.uesp.net/wiki/Skyrim:Weapons"),
         ("armor", "https://en.uesp.net/wiki/Skyrim:Armor")] =
      runCategories ⟨fun _ => none, fun _ => [], fun _ => ⟨none, "", []⟩, fun s => s⟩ true none
        (fun _ => none) [] [("armor", "https://en.uesp.net/wiki/Skyrim:Armor")] :=
  fetch_failure_not_fatal _ true none _ [] []
    [("armor", "https://en.uesp.net/wiki/Skyrim:Armor")] "weapons"
    "https://en.uesp.net/wiki/Skyrim:Weapons" rfl

theorem scrapeLoop_take (env : Env) (useCache : Bool) {n : Nat} (hn : ¬ n = 0) :
    ∀ (links : List (String × String)) (cache : String → Option String) (count : Nat),
      (scrapeLoop env useCache (some n) cache count links).1 =
        ((scrapeLoop env useCache none cache count links).1).take (n - count)
  | [], cache, count => by
    rw [scrapeLoop.eq_def, scrapeLoop.eq_def]
    simp
  | (title, link) :: rest, cache, count => by
    rw [scrapeLoop.eq_def, scrapeLoop.eq_def]
    dsimp only
    rw [if_neg (by simp [limitHit] : ¬ limitHit none count = true)]
    by_cases hcnt : n ≤ count
    · have hl : limitHit (some n) count = true := by
        rw [limitHit, if_neg hn]; exact decide_eq_true hcnt
      rw [if_pos hl, Nat.sub_eq_zero_of_le hcnt, List.take_zero]
    · have hl : ¬ limitHit (some n) count = true := by
        rw [limitHit, if_neg hn]; simp [hcnt]
      rw [if_neg hl]
      have hsub : n - count = (n - (count + 1)) + 1 := by omega
      cases hcl : cacheLookup useCache cache (cacheKey link) with
      | some html =>
        dsimp only
        rw [scrapeLoop_take env useCache hn rest cache (count + 1), hsub, List.take_succ_cons]
      | none =>
        dsimp only
        cases hf : env.fetch link with
        | none =>
          dsimp only
          exact scrapeLoop_take env useCache hn rest cache count
        | some html =>
          dsimp only
          by_cases hh : html = ""
          · rw [if_pos hh, if_pos hh]
            exact scrapeLoop_take env useCache hn rest cache count
          · rw [if_neg hh, if_neg hh]
            dsimp only
            rw [scrapeLoop_take env useCache hn rest _ (count + 1), hsub, List.take_succ_cons]

/-- C9: `main` passes `max_per_cat or None`, so a configured limit of `0`
scrapes without cap, and a limit `n > 0` yields exactly the first `n`
records of the uncapped run — at most `n` records, and only successfully
processed candidates consume limit slots, since skipped candidates add no
record to the uncapped sequence either. -/
theorem scrape_category_limit (env : Env) (useCache : Bool)
    (cache : String → Option String) (url : String) (n : Nat) :
    (scrape_category env useCache (mainLimit n) cache url).1 =
      (if n = 0 then (scrape_category env useCache none cache url).1
       else ((scrape_category env useCache none cache url).1).take n) ∧
    (scrape_category env useCache (mainLimit n) cache url).1.length ≤
      (if n = 0 then (scrape_category env useCache none cache url).1.length else n) := by
  by_cases hn : n = 0
  · subst hn
    rw [if_pos rfl, if_pos rfl]
    exact ⟨rfl, Nat.le_refl _⟩
  · have hml : mainLimit n = some n := by unfold mainLimit; rw [if_neg hn]
    rw [hml, if_neg hn, if_neg hn]
    have h1 : (scrape_category env useCache (some n) cache url).1 =
        ((scrape_category env useCache none cache url).1).take n := by
      unfold scrape_category
      cases hf : env.fetch url with
      | none => simp
      | some html =>
        dsimp only
        by_cases hh : html = ""
        · rw [if_pos hh, if_pos hh]; simp
        · rw [if_neg hh, if_neg hh]
          simpa using scrapeLoop_take env useCache hn
            (extract_item_links (env.originOf url) (env.parseAnchors html)) cache 0
    exact ⟨h1, by rw [h1]; exact List.length_take_le n _⟩

/-- C8: the cache-key derivation is not injective — the distinct item URLs
`.../wiki/Iron.Sword` and `.../wiki/Iron/Sword` sanitise to the same file
name — and the collision is silently acted on: with the first URL's page
cached, scraping the second URL builds its record from the cached page
(here surfaced through the parsed heading, `A-PAGE`) even though a fresh
fetch of that URL would return different content (`B-PAGE`). -/
theorem cacheKey_not_injective :
    ("https://en.uesp.net/wiki/Iron.Sword" : String) ≠
        "https://en.uesp.net/wiki/Iron/Sword" ∧
    cacheKey "https://en.uesp.net/wiki/Iron.Sword" =
        cacheKey "https://en.uesp.net/wiki/Iron/Sword" ∧
    (scrapeLoop ⟨fun _ => some "B-PAGE", fun _ => [], fun s => ⟨some s, "", []⟩, fun s => s⟩
        true none
        (fun k => if k = cacheKey "https://en.uesp.net/wiki/Iron.Sword" then some "A-PAGE"
          else none)
        0 [("Title2", "https://en.uesp.net/wiki/Iron/Sword")]).1 =
      [⟨"A-PAGE", "", "https://en.uesp.net/wiki/Iron/Sword"⟩] := by
  refine ⟨by decide, by decide, by decide⟩

/-- C10: resume loading copies stored keys verbatim while the merge looks up
and stores under the lowercased category name, so a resume entry under a
case-differing key suppresses nothing: every scraped item is re-appended
under the lowercased key, and the store ends with both entries. -/
theorem resume_key_case_mismatch (K N : String) (recs items : List Item)
    (hK : K ≠ toLowerStr N) (_hcase : toLowerStr K = toLowerStr N) (hne : items ≠ []) :
    lookupStore (mergeCategory [(K, recs)] N items) (toLowerStr N) = some items ∧
    lookupStore (mergeCategory [(K, recs)] N items) K = some recs := by
  have hlook : lookupStore [(K, recs)] (toLowerStr N) = none := by
    simp [lookupStore, hK]
  have hex : existingLowerNames [(K, recs)] (toLowerStr N) = [] := by
    unfold existingLowerNames
    rw [hlook]
    rfl
  have hfilter : (items.filter fun it =>
      !((existingLowerNames [(K, recs)] (toLowerStr N)).contains (lowerName it))) = items := by
    rw [hex]
    exact List.filter_eq_self.2 fun a _ => rfl
  have hnotemp : ¬ (items.filter fun it =>
      !((existingLowerNames [(K, recs)] (toLowerStr N)).contains (lowerName it))).isEmpty =
        true := by
    rw [hfilter, List.isEmpty_iff]
    exact hne
  rw [mergeCategory_of_not_isEmpty hnotemp, hfilter, hlook]
  have hset : setStore [(K, recs)] (toLowerStr N) ((Option.getD none []) ++ items) =
      (K, recs) :: [(toLowerStr N, items)] := by
    show setStore [(K, recs)] (toLowerStr N) ([] ++ items) = _
    rw [List.nil_append]
    unfold setStore
    rw [if_neg hK]
    rfl
  rw [hset]
  constructor
  · simp [lookupStore, hK, Ne.symm hK]
  · simp [lookupStore]

/-- C10 instantiated: a resume file holding the key `Weapons` does not
suppress re-appending `Iron Sword` when the category `Weapons` is scraped
and merged under the key `weapons`; both keys end up in the store. -/
theorem resume_key_case_mismatch_witness :
    lookupStore
        (mergeCategory [("Weapons", [⟨"Iron Sword", "0003A3F8", "u"⟩])] "Weapons"
          [⟨"Iron Sword", "0003A3F8", "u"⟩])
        (toLowerStr "Weapons") = some [⟨"Iron Sword", "0003A3F8", "u"⟩] ∧
    lookupStore
        (mergeCategory [("Weapons", [⟨"Iron Sword", "0003A3F8", "u"⟩])] "Weapons"
          [⟨"Iron Sword", "0003A3F8", "u"⟩])
        "Weapons" = some [⟨"Iron Sword", "0003A3F8", "u"⟩] :=
  resume_key_case_mismatch "Weapons" "Weapons" [⟨"Iron Sword", "0003A3F8", "u"⟩]
    [⟨"Iron Sword", "0003A3F8", "u"⟩] (by decide) (by decide) (by decide)

end SkyrimGen
